import Mathlib

/-!
Verification of the eme-studios product scraper.

The development shallowly embeds the string-processing and record-normalization
functions of src/scraper.py (and the constants of src/config.py) over lists of
characters, and proves or refutes the specified properties about them.
Python strings are modelled as `List Char`; Python float amounts are modelled
as exact rationals, built only from `mkRat` and integer arithmetic so that all
definitions evaluate by kernel reduction.
-/

abbrev Str := List Char

/-- Python str.strip character class: ASCII whitespace. -/
def pyIsSpace (c : Char) : Bool :=
  c == ' ' || c == '\t' || c == '\n' || c == '\r' || c == Char.ofNat 11 || c == Char.ofNat 12

/-- Leading-whitespace removal, as in Python lstrip with no argument. -/
def lstripWs (s : Str) : Str := s.dropWhile pyIsSpace

/-- Trailing-whitespace removal, as in Python rstrip with no argument. -/
def rstripWs (s : Str) : Str := (s.reverse.dropWhile pyIsSpace).reverse

/-- Python str.strip with no argument. -/
def pyStrip (s : Str) : Str := rstripWs (lstripWs s)

/-- The part of the string before its first question mark: Python split on a
question mark, first component. -/
def splitQuery (s : Str) : Str := s.takeWhile (fun c => !(c == '?'))

/-- Boolean string prefix test, as in Python startswith. -/
def strStarts : Str → Str → Bool
  | [], _ => true
  | _ :: _, [] => false
  | a :: ps, b :: ss => a == b && strStarts ps ss

/-- Index of the first occurrence of a substring, as in Python str.index and
str.find: none when the pattern does not occur. -/
def findSub (pat : Str) : Str → Option Nat
  | [] => if pat = [] then some 0 else none
  | c :: rest =>
    if strStarts pat (c :: rest) then some 0
    else (findSub pat rest).map (fun n => n + 1)

/-- Substring containment, as in the Python in operator on strings. -/
def containsSub (pat s : Str) : Bool := (findSub pat s).isSome

/-- Python lstrip with a slash argument. -/
def lstripSlash (s : Str) : Str := s.dropWhile (fun c => c == '/')

/-- Python rstrip with a slash argument. -/
def rstripSlash (s : Str) : Str := (s.reverse.dropWhile (fun c => c == '/')).reverse

/-- Remove trailing copies of one character, as in Python rstrip with a
one-character argument. -/
def rstripChar (ch : Char) (s : Str) : Str := (s.reverse.dropWhile (fun c => c == ch)).reverse

/-- Fuel-driven body of replaceSub; the fuel is an upper bound on the number
of characters still to scan, so recursion is structural and the definition
evaluates by kernel reduction. -/
def replaceSubFuel (pat rep : Str) : Nat → Str → Str
  | _, [] => []
  | 0, s => s
  | fuel + 1, c :: rest =>
    if pat ≠ [] ∧ strStarts pat (c :: rest) = true then
      rep ++ replaceSubFuel pat rep fuel ((c :: rest).drop pat.length)
    else
      c :: replaceSubFuel pat rep fuel rest

/-- Python str.replace: replace every non-overlapping occurrence of pat by rep,
scanning left to right. For a non-empty pattern the scan consumes at least one
character per step, so the length of the string is enough fuel. -/
def replaceSub (pat rep s : Str) : Str := replaceSubFuel pat rep s.length s

/-- Python str.lower, ASCII case folding. -/
def toLowerStr (s : Str) : Str := s.map Char.toLower

/-- Python str.upper, ASCII case folding. -/
def toUpperStr (s : Str) : Str := s.map Char.toUpper

/-- Python truthiness fallback x or y on an optional string x: the left string
when present and non-empty, the right string otherwise. -/
def pyOr (a : Option Str) (b : Str) : Str :=
  match a with
  | some s => if s = [] then b else s
  | none => b

/-- Split a string at every occurrence of one character, as in Python
str.split with a one-character separator. -/
def splitChar (ch : Char) : Str → List Str
  | [] => [[]]
  | c :: rest =>
    match splitChar ch rest with
    | [] => [[]]
    | g :: gs => if c == ch then [] :: g :: gs else (c :: g) :: gs

/-- The apostrophe character, kept out of literals. -/
def apos : Char := Char.ofNat 39

/-! ## Constants from src/config.py -/

/-- BASE_URL of src/config.py. -/
def BASE_URL : Str := ("https://emestudios.com").data

/-- MAX_SCROLL_ATTEMPTS of src/config.py. -/
def MAX_SCROLL_ATTEMPTS : Nat := 50

/-- BASE_URL with trailing slashes removed, as computed inside
_normalize_image_url. -/
def baseNoSlash : Str := rstripSlash BASE_URL

/-! ## _normalize_image_url (src/scraper.py lines 18 to 36) -/

/-- Body of _normalize_image_url for a non-empty string input: every branch of
the Python function returns a string once the empty-input guard has passed. -/
def normalizeImageUrlCore (url : Str) : Str :=
  let u := splitQuery (pyStrip url)
  if strStarts (("http://").data) u || strStarts (("https://").data) u then u
  else if strStarts (("//").data) u then ("https:").data ++ u
  else if strStarts (("/").data) u then baseNoSlash ++ u
  else
    match findSub (("cdn/shop/files/").data) u with
    | some idx => baseNoSlash ++ ("/").data ++ u.drop idx
    | none =>
      match findSub (("emestudios.com").data) u with
      | some i => baseNoSlash ++ ("/").data ++ lstripSlash (u.drop (i + 14))
      | none => baseNoSlash ++ ("/").data ++ lstripSlash u

/-- Translation of _normalize_image_url: none exactly on the empty string
(non-string inputs are outside the string model), otherwise the normalized
URL. -/
def normalizeImageUrl (url : Str) : Option Str :=
  if url = [] then none else some (normalizeImageUrlCore url)

/-! ## _normalize_product_url (src/scraper.py lines 39 to 49) -/

/-- Characters allowed after the first letter of a URL scheme. -/
def isSchemeChar (c : Char) : Bool := c.isAlphanum || c == '+' || c == '-' || c == '.'

/-- Helper for scheme detection: scheme characters followed by a colon. -/
def schemeRest : Str → Bool
  | [] => false
  | c :: rest => if c == ':' then true else isSchemeChar c && schemeRest rest

/-- Whether the string begins with a URL scheme (letter, then scheme
characters, then a colon). -/
def schemeLike (s : Str) : Bool :=
  match s with
  | [] => false
  | c :: rest => c.isAlpha && schemeRest rest

/-- Modelled from the spec: resolution of an href against the fixed base
origin, standing in for urllib.parse.urljoin(BASE_URL, href), which is
standard-library code not under src/. Scheme-qualified hrefs pass through
unchanged; protocol-relative, root-relative, query and fragment references
and plain relative paths are resolved against the origin. -/
def urljoinBase (href : Str) : Str :=
  if href = [] then BASE_URL
  else if schemeLike href then href
  else if strStarts (("//").data) href then ("https:").data ++ href
  else if strStarts (("/").data) href then BASE_URL ++ href
  else if strStarts (("#").data) href then BASE_URL ++ href
  else if strStarts (("?").data) href then BASE_URL ++ href
  else BASE_URL ++ ("/").data ++ href

/-- The locale preference step of _normalize_product_url: rewrite en-us and
en-gb locale segments to en-at when no en-at segment is present but some
en- segment is. -/
def localeFix (url : Str) : Str :=
  if !(containsSub (("/en-at/").data) url) && containsSub (("/en-").data) url then
    replaceSub (("/en-gb/").data) (("/en-at/").data)
      (replaceSub (("/en-us/").data) (("/en-at/").data) url)
  else url

/-- Translation of _normalize_product_url. -/
def normalizeProductUrl (href : Str) : Str :=
  if href = [] || strStarts (("#").data) href || containsSub (("javascript:").data) href then []
  else
    let url := localeFix (urljoinBase href)
    if !(containsSub (("/products/").data) url) then []
    else splitQuery url

/-! ## Embed image pattern (src/config.py line 23, src/scraper.py lines 52 to 57) -/

/-- Consume a literal from the front of the string, or fail. -/
def expectLit : Str → Str → Option Str
  | [], s => some s
  | _ :: _, [] => none
  | a :: ps, b :: ss => if a == b then expectLit ps ss else none

/-- Consume exactly n decimal digits, or fail. -/
def expectDigits : Nat → Str → Option Str
  | 0, s => some s
  | _ + 1, [] => none
  | n + 1, c :: ss => if c.isDigit then expectDigits n ss else none

/-- Consume one or more decimal digits, maximally, or fail. -/
def expectDigits1 : Str → Option Str
  | [] => none
  | c :: ss => if c.isDigit then some ((c :: ss).dropWhile Char.isDigit) else none

/-- Match of the EMBED_IMAGE_URL_PATTERN regex anchored at the front of the
string: a cdn shop files path, a date of digits and underscores, the brand
tag EME, digits, and a webp extension. -/
def matchEmbedAt (s : Str) : Bool :=
  (((((((((expectLit (("/cdn/shop/files/").data) s).bind
    (expectDigits 4)).bind
    (expectLit (("_").data))).bind
    (expectDigits 2)).bind
    (expectLit (("_").data))).bind
    (expectDigits 2)).bind
    (expectLit (("EME").data))).bind
    expectDigits1).bind
    (expectLit ((".webp").data))).isSome

/-- Translation of _is_embed_image_url: unanchored regex search of
EMBED_IMAGE_URL_PATTERN, false on the empty string. -/
def isEmbedImageUrl : Str → Bool
  | [] => false
  | c :: rest => matchEmbedAt (c :: rest) || isEmbedImageUrl rest

/-! ## split_embed_and_extra_images (src/scraper.py lines 360 to 377) -/

/-- The loop of split_embed_and_extra_images, with the running embed choice
and additional list as accumulators; the final match renders the
promote-first-additional step performed after the loop. -/
def splitCore : List Str → Option Str → List Str → Option Str × List Str
  | [], embed, additional =>
    (match embed, additional with
     | none, [] => (none, [])
     | none, h :: t => (some h, t)
     | some e, add => (some e, add))
  | url :: rest, embed, additional =>
    let u := pyStrip url
    if u = [] then splitCore rest embed additional
    else if isEmbedImageUrl u then
      match embed with
      | none => splitCore rest (some u) additional
      | some e => splitCore rest (some e) (additional ++ [u])
    else splitCore rest embed (additional ++ [u])

/-- Translation of split_embed_and_extra_images. -/
def splitEmbedAndExtraImages (imageUrls : List Str) : Option Str × List Str :=
  splitCore imageUrls none []

/-- The image classification described by the spec, written from its words:
the embed image is the first URL matching the embed pattern and every other
URL stays in encounter order; with no match the first URL is promoted; with
no URLs both results are empty. Used to state the refinement claim. -/
def firstEmbedSplit : List Str → Option (Str × List Str)
  | [] => none
  | u :: rest =>
    if isEmbedImageUrl u then some (u, rest)
    else
      match firstEmbedSplit rest with
      | some (a, others) => some (a, u :: others)
      | none => none

/-- Spec-side counterpart of split_embed_and_extra_images, see
firstEmbedSplit. -/
def splitSpec (imageUrls : List Str) : Option Str × List Str :=
  match firstEmbedSplit imageUrls with
  | some (a, others) => (some a, others)
  | none =>
    match imageUrls with
    | [] => (none, [])
    | u :: rest => (some u, rest)

/-! ## _normalize_amount (src/scraper.py lines 299 to 310) -/

def isDigitChar (c : Char) : Bool := c.isDigit

/-- The cleaning step of _normalize_amount: drop every character that is not a
digit, dot or comma (the re.sub), then turn commas into dots. -/
def cleanNum (s : Str) : Str :=
  (s.filter (fun c => isDigitChar c || c == '.' || c == ',')).map
    (fun c => if c == ',' then '.' else c)

/-- Whether the cleaned string matches the anchored numeric regex of
_normalize_amount: one or more digits, an optional dot, then optional
digits, and nothing else. -/
def matchesNumRe (num : Str) : Bool :=
  let ip := num.takeWhile isDigitChar
  let rest := num.dropWhile isDigitChar
  decide (ip ≠ []) &&
    (match rest with
     | [] => true
     | c :: ds => c == '.' && ds.all isDigitChar)

/-- Numeric value of a digit run. -/
def digitsVal (ds : Str) : Nat := ds.foldl (fun a c => a * 10 + (c.toNat - 48)) 0

/-- Exact value of a string matching the numeric regex, as the Python float
call computes it on such input: integer part plus fractional digits scaled
by a power of ten. Built with mkRat so it evaluates by kernel reduction. -/
def parseNum (num : Str) : ℚ :=
  let ip := num.takeWhile isDigitChar
  let rest := num.dropWhile isDigitChar
  let frac := match rest with
    | [] => []
    | _ :: ds => ds
  mkRat (digitsVal ip * 10 ^ frac.length + digitsVal frac) (10 ^ frac.length)

/-- Exact division by one hundred, avoiding the irreducible rational field
operations: the cents step of _normalize_amount. -/
def divBy100 (v : ℚ) : ℚ := mkRat v.num (v.den * 100)

/-- Translation of _normalize_amount. The float equality test val == int(val)
is integrality of the exact value, expressed through the denominator; it is
implied by the no-dot conjunct but kept for fidelity. -/
def normalizeAmount (s : Str) : Option ℚ :=
  if s = [] then none
  else
    let num := cleanNum s
    if matchesNumRe num then
      let v := parseNum num
      if 100 ≤ v ∧ !(num.contains '.') ∧ v.den = 1 then some (divBy100 v) else some v
    else none

/-! ## Data model: the raw field bag of one scraped product page -/

/-- The metadata mapping filled by the page script of scrape_product_page. -/
structure Meta where
  priceRaw : Option Str := none
  priceCurrency : Option Str := none
  tags : Option Str := none
  vendor : Option Str := none
  handle : Option Str := none
  collections : Option Str := none
  breadcrumb : Option Str := none
  deriving DecidableEq

/-- The raw product record assembled in the page script of
scrape_product_page and then normalized in Python. -/
structure RawData where
  title : Option Str := none
  description : Option Str := none
  category : Option Str := none
  gender : Option Str := none
  price : Option Str := none
  sale : Option Str := none
  compareAtPrice : Option Str := none
  imageUrls : List Str := []
  metadata : Meta := {}
  deriving DecidableEq

/-! ## _build_price_and_sale (src/scraper.py lines 313 to 340) -/

/-- The currency before the regex fallback: metadata priceCurrency or USD,
upper-cased. -/
def currency0 (d : RawData) : Str := toUpperStr (pyOr d.metadata.priceCurrency (("USD").data))

/-- The raw price string: the price field, else metadata priceRaw, else
empty, stripped. -/
def rawPrice (d : RawData) : Str := pyStrip (pyOr d.price (pyOr d.metadata.priceRaw []))

/-- The raw compare-at string, stripped. -/
def rawCompare (d : RawData) : Str := pyStrip (pyOr d.compareAtPrice [])

/-- The parsed compare-at amount: only attempted on a non-empty raw string. -/
def parsedCompare (d : RawData) : Option ℚ :=
  if rawCompare d ≠ [] then normalizeAmount (rawCompare d) else none

/-- The re.search of the price fallback in _build_price_and_sale: the first
maximal run of digits, dots and commas, and the currency token following
optional whitespace, if any. Alternatives are tried in the order of the
pattern. -/
def searchPriceFallback : Str → Option (Str × Option Str)
  | [] => none
  | c :: rest =>
    if isDigitChar c || c == '.' || c == ',' then
      let g1 := (c :: rest).takeWhile (fun x => isDigitChar x || x == '.' || x == ',')
      let after := ((c :: rest).dropWhile (fun x => isDigitChar x || x == '.' || x == ',')).dropWhile pyIsSpace
      let g2 := [("$").data, [Char.ofNat 8364], ("USD").data, ("EUR").data,
                 ("CZK").data, ("PLN").data].find? (fun t => strStarts t after)
      some (g1, g2)
    else searchPriceFallback rest

/-- The resolved price value and currency of _build_price_and_sale: the direct
parse of the raw price string, else the regex fallback with its currency
symbol mapping of the dollar sign to USD and the euro sign to EUR. -/
def resolvedPriceCur (d : RawData) : Option ℚ × Str :=
  match normalizeAmount (rawPrice d) with
  | some v => (some v, currency0 d)
  | none =>
    if rawPrice d ≠ [] then
      match searchPriceFallback (rawPrice d) with
      | some (g1, g2) =>
        (normalizeAmount g1,
         match g2 with
         | some t =>
           toUpperStr (replaceSub [Char.ofNat 8364] (("EUR").data)
             (replaceSub (("$").data) (("USD").data) t))
         | none => currency0 d)
      | none => (none, currency0 d)
    else (none, currency0 d)

/-- Floor of a rational, through integer floor division. -/
def ratFloor (q : ℚ) : ℤ := q.num.fdiv q.den

/-- The cents value printed by the Python two-decimal float format: the exact
value times one hundred, rounded half to even as the format directive
rounds. Implemented on the numerator and denominator so it evaluates by
kernel reduction. -/
def round2cents (v : ℚ) : ℤ :=
  let n := v.num * 100
  let d := (v.den : ℤ)
  if 2 * (n - (n.fdiv d) * d) = d then
    (if (n.fdiv d) % 2 = 0 then n.fdiv d else n.fdiv d + 1)
  else (2 * n + d).fdiv (2 * d)

/-- Two-digit rendering of a number below one hundred. -/
def twoDigits (n : Nat) : Str :=
  if n < 10 then '0' :: Nat.toDigits 10 n else Nat.toDigits 10 n

/-- The amount formatting of _build_price_and_sale: two-decimal fixed format,
then strip trailing zeros, then a trailing dot. Negative amounts cannot
arise from parsed digit strings, so the cents value is taken at its
absolute value. -/
def fmt2 (v : ℚ) : Str :=
  let c := (round2cents v).toNat
  rstripChar '.' (rstripChar '0'
    (Nat.toDigits 10 (c / 100) ++ ('.' :: twoDigits (c % 100))))

/-- Translation of _build_price_and_sale. -/
def buildPriceAndSale (d : RawData) : Str × Option Str :=
  match resolvedPriceCur d with
  | (none, _) => ([], none)
  | (some p, cur) =>
    match parsedCompare d with
    | some cv =>
      if p < cv then (fmt2 cv ++ cur, some (fmt2 p ++ cur))
      else (fmt2 p ++ cur, none)
    | none => (fmt2 p ++ cur, none)

/-! ## _infer_gender (src/scraper.py lines 343 to 357) -/

/-- The men keyword list of _infer_gender, in source order. -/
def menKeywords : List Str :=
  [("men").data, ("man").data, ("male").data, ("mens").data,
   ("men").data ++ apos :: ("s").data]

/-- The women keyword list of _infer_gender, in source order. -/
def womenKeywords : List Str :=
  [("women").data, ("woman").data, ("female").data, ("womens").data,
   ("women").data ++ apos :: ("s").data, ("ladies").data]

/-- Translation of _infer_gender: lower-cased category, tags, handle,
collections and vendor joined by single spaces, then the men keyword check
first and the women keyword check second. -/
def inferGender (d : RawData) : Option Str :=
  let combined := List.intercalate ((" ").data)
    [toLowerStr (pyOr d.category []),
     toLowerStr (pyOr d.metadata.tags []),
     toLowerStr (pyOr d.metadata.handle []),
     toLowerStr (pyOr d.metadata.collections []),
     toLowerStr (pyOr d.metadata.vendor [])]
  if menKeywords.any (fun w => containsSub w combined) then some (("man").data)
  else if womenKeywords.any (fun w => containsSub w combined) then some (("woman").data)
  else none

/-! ## Category split (src/scraper.py lines 282 to 286) -/

/-- The category normalization step of scrape_product_page: strip the resolved
raw category, split at ampersands into trimmed segments joined by comma and
space when one is present, and map the empty result to an absent category. -/
def normalizeCategory (raw : Str) : Option Str :=
  let c0 := pyStrip raw
  let c1 :=
    if c0 ≠ [] ∧ c0.contains '&' = true then
      List.intercalate ((", ").data) ((splitChar '&' c0).map pyStrip)
    else c0
  if c1 = [] then none else some c1

/-! ## scrape_product_page, Python part (src/scraper.py lines 262 to 296) -/

/-- Whether the scrape result so far is falsy or has a falsy title, the
condition guarding the fallback title read and the early return. -/
def titleMissing : Option RawData → Bool
  | none => true
  | some d =>
    match d.title with
    | none => true
    | some [] => true
    | some (_ :: _) => false

/-- The fallback title step: when the evaluated data is falsy or has no
title, a non-empty heading text is stripped and installed as the title. -/
def applyTitleFallback (d0 : Option RawData) (h1 : Option Str) : Option RawData :=
  if titleMissing d0 then
    match h1 with
    | some t => if t ≠ [] then some { d0.getD {} with title := some (pyStrip t) } else d0
    | none => d0
  else d0

/-- The og:image fallback list: the normalized open-graph image when the page
yielded no image URLs and the attribute is present and non-empty. -/
def ogImageList (og : Option Str) : List Str :=
  match og with
  | some o => if o ≠ [] then (normalizeImageUrl o).toList else []
  | none => []

/-- The Python normalization tail of scrape_product_page: re-normalize and
filter the image URLs, split the category, build price and sale, and infer
the gender, in source order. -/
def finishRecord (d : RawData) (og : Option Str) : RawData :=
  let urls1 := (if d.imageUrls ≠ [] then d.imageUrls else ogImageList og).filterMap
    normalizeImageUrl
  let d2 := { d with
    imageUrls := urls1,
    category := normalizeCategory (pyOr d.category (pyOr d.metadata.breadcrumb [])) }
  let ps := buildPriceAndSale d2
  let d3 := { d2 with price := some ps.1, sale := ps.2 }
  { d3 with gender := inferGender d3 }

/-- Translation of the Python part of scrape_product_page: the page script
result, the fallback heading text and the og:image attribute are the three
page reads the function makes. Returns none exactly when no title could be
extracted. -/
def scrapeProductPage (d0 : Option RawData) (h1 : Option Str) (og : Option Str) :
    Option RawData :=
  match applyTitleFallback d0 h1 with
  | none => none
  | some d => if titleMissing (some d) then none else some (finishRecord d og)

/-! ## run_scraper (src/scraper.py lines 399 to 432) -/

/-- One product page visit as run_scraper sees it: either some step of the
visit raised (navigation failure, evaluation failure), or the page yielded
the three reads scrape_product_page makes. -/
inductive ProductPage where
  | crash : ProductPage
  | page : Option RawData → Option Str → Option Str → ProductPage
  deriving DecidableEq

/-- The outcome of the guarded scrape of one product URL: none when the visit
raised or no title was extractable, the record otherwise. -/
def scrapeOutcome : ProductPage → Option RawData
  | ProductPage.crash => none
  | ProductPage.page d0 h1 og => scrapeProductPage d0 h1 og

/-- One row of the run_scraper output list, after the per-row field
assembly. -/
structure OutRow where
  row : RawData
  productUrl : Str
  imageUrl : Str
  additionalImages : Str
  deriving DecidableEq

/-- The product loop of run_scraper: scrape each URL, skip on a raised
exception or a missing title, otherwise attach the product URL, the embed
image and the joined additional images. -/
def runScraperLoop : List (Str × ProductPage) → List OutRow
  | [] => []
  | (url, p) :: rest =>
    match scrapeOutcome p with
    | none => runScraperLoop rest
    | some r =>
      let es := splitEmbedAndExtraImages r.imageUrls
      { row := r, productUrl := url,
        imageUrl := pyOr es.1 [],
        additionalImages :=
          if es.2 ≠ [] then List.intercalate ((" , ").data) es.2 else [] }
        :: runScraperLoop rest

/-! ## collect_product_urls_from_category (src/scraper.py lines 60 to 109) -/

/-- Insertion into the seen set, modelled as a duplicate-free list in
insertion order. -/
def addLink (seen : List Str) (u : Str) : List Str :=
  if seen.contains u then seen else seen ++ [u]

/-- The link collection loop body: normalize each anchor href and add the
non-empty results to the seen set. -/
def addLinks (seen : List Str) (links : List Str) : List Str :=
  links.foldl
    (fun acc raw =>
      let u := normalizeProductUrl raw
      if u ≠ [] then addLink acc u else acc)
    seen

/-- Whether the optional URL budget has been reached. -/
def budgetReached (maxUrls : Option Nat) (n : Nat) : Bool :=
  match maxUrls with
  | some m => decide (m ≤ n)
  | none => false

/-- The scroll loop of collect_product_urls_from_category. The category page
is modelled as the sequence of anchor-set reads the page evaluations
return, indexed by read number; each iteration consumes two reads (the link
collection and the post-scroll count) and a third when the lookahead branch
runs. The fuel counts the remaining loop iterations, starting from
MAX_SCROLL_ATTEMPTS, and the result carries the number of iterations run. -/
def collectIter (reads : Nat → List Str) (maxUrls : Option Nat) :
    Nat → Nat → Nat → List Str → List Str × Nat
  | 0, _, _, seen => (seen, 0)
  | fuel + 1, attempt, t, seen =>
    let seen1 := addLinks seen (reads t)
    if budgetReached maxUrls seen1.length then (seen1.take (maxUrls.getD 0), 1)
    else
      let afterLinks := (reads (t + 1)).length
      let prev := seen1.length
      if afterLinks ≠ 0 ∧ afterLinks ≤ prev then
        let seen2 := addLinks seen1 (reads (t + 2))
        if seen2.length ≤ prev then (seen2, 1)
        else if 2 ≤ attempt ∧ seen2.length = prev then (seen2, 1)
        else
          let r := collectIter reads maxUrls fuel (attempt + 1) (t + 3) seen2
          (r.1, r.2 + 1)
      else
        if 2 ≤ attempt ∧ seen1.length = prev then (seen1, 1)
        else
          let r := collectIter reads maxUrls fuel (attempt + 1) (t + 2) seen1
          (r.1, r.2 + 1)

/-- Translation of collect_product_urls_from_category on the read-sequence
page model: run the scroll loop from attempt zero with the full attempt
budget. -/
def collectProductUrls (reads : Nat → List Str) (maxUrls : Option Nat) : List Str × Nat :=
  collectIter reads maxUrls MAX_SCROLL_ATTEMPTS 0 0 []

/-! ## Helper lemmas about the string primitives -/

theorem strStarts_iff_append : ∀ (p u : Str), strStarts p u = true ↔ ∃ r, u = p ++ r := by
  intro p
  induction p with
  | nil =>
    intro u
    simp [strStarts]
  | cons a ps ih =>
    intro u
    cases u with
    | nil =>
      simp [strStarts]
    | cons b ss =>
      constructor
      · intro h
        simp only [strStarts, Bool.and_eq_true, beq_iff_eq] at h
        obtain ⟨rfl, h2⟩ := h
        obtain ⟨r, rfl⟩ := (ih ss).mp h2
        exact ⟨r, rfl⟩
      · rintro ⟨r, h⟩
        rw [List.cons_append] at h
        injection h with h1 h2
        subst h1
        subst h2
        have hx : strStarts ps (ps ++ r) = true := (ih _).mpr ⟨r, rfl⟩
        simp [strStarts, hx]

theorem all_takeWhile_self (p : Char → Bool) : ∀ l : Str, (l.takeWhile p).all p = true := by
  intro l
  induction l with
  | nil => rfl
  | cons a t ih =>
    by_cases h : p a = true
    · simp [List.takeWhile_cons, h, ih]
    · simp [List.takeWhile_cons, h]

theorem takeWhile_of_all (p : Char → Bool) :
    ∀ l : Str, l.all p = true → l.takeWhile p = l := by
  intro l
  induction l with
  | nil => intro _; rfl
  | cons a t ih =>
    intro h
    simp only [List.all_cons, Bool.and_eq_true] at h
    simp [List.takeWhile_cons, h.1, ih h.2]

theorem all_drop_of_all (p : Char → Bool) :
    ∀ (n : Nat) (l : Str), l.all p = true → (l.drop n).all p = true := by
  intro n
  induction n with
  | zero => intro l h; simpa using h
  | succ m ih =>
    intro l h
    cases l with
    | nil => rfl
    | cons a t =>
      simp only [List.all_cons, Bool.and_eq_true] at h
      simpa using ih t h.2

theorem all_dropWhile_of_all (p q : Char → Bool) :
    ∀ l : Str, l.all p = true → (l.dropWhile q).all p = true := by
  intro l
  induction l with
  | nil => intro _; rfl
  | cons a t ih =>
    intro h
    simp only [List.all_cons, Bool.and_eq_true] at h
    by_cases hq : q a = true
    · simp [List.dropWhile_cons, hq, ih h.2]
    · simp [List.dropWhile_cons, hq, h.1, h.2]

/-- Absence of question marks, the invariant that makes the query split
inert. -/
def noQmark (s : Str) : Bool := s.all (fun c => !(c == '?'))

theorem noQmark_append (x y : Str) : noQmark (x ++ y) = (noQmark x && noQmark y) := by
  simp [noQmark, List.all_append]

theorem noQmark_splitQuery (s : Str) : noQmark (splitQuery s) = true :=
  all_takeWhile_self _ s

theorem lstripWs_cons_of_not {c : Char} (l : Str) (h : pyIsSpace c = false) :
    lstripWs (c :: l) = c :: l := by
  simp [lstripWs, List.dropWhile_cons, h]

/-! ## Branch facts about normalizeImageUrlCore -/

theorem core_starts (url : Str) :
    strStarts (("http://").data) (normalizeImageUrlCore url) = true
    ∨ strStarts (("https://").data) (normalizeImageUrlCore url) = true := by
  simp only [normalizeImageUrlCore]
  set u := splitQuery (pyStrip url) with hu
  have hbase : ∀ t : Str,
      strStarts (("https://").data) (baseNoSlash ++ t) = true := by
    intro t
    exact (strStarts_iff_append _ _).mpr ⟨("emestudios.com").data ++ t, by rfl⟩
  by_cases h1 : (strStarts (("http://").data) u || strStarts (("https://").data) u) = true
  · rw [if_pos h1]
    exact Bool.or_eq_true_iff.mp h1
  · rw [if_neg h1]
    by_cases h2 : strStarts (("//").data) u = true
    · rw [if_pos h2]
      obtain ⟨r, hr⟩ := (strStarts_iff_append _ u).mp h2
      right
      rw [hr]
      exact (strStarts_iff_append _ _).mpr ⟨r, rfl⟩
    · rw [if_neg h2]
      by_cases h3 : strStarts (("/").data) u = true
      · rw [if_pos h3]
        exact Or.inr (hbase u)
      · rw [if_neg h3]
        cases hf : findSub (("cdn/shop/files/").data) u with
        | some idx =>
          dsimp only
          rw [List.append_assoc]
          exact Or.inr (hbase _)
        | none =>
          cases hg : findSub (("emestudios.com").data) u with
          | some i =>
            dsimp only
            rw [List.append_assoc]
            exact Or.inr (hbase _)
          | none =>
            dsimp only
            rw [List.append_assoc]
            exact Or.inr (hbase _)

theorem core_noQmark (url : Str) : noQmark (normalizeImageUrlCore url) = true := by
  simp only [normalizeImageUrlCore]
  set u := splitQuery (pyStrip url) with hu
  have hq : noQmark u = true := noQmark_splitQuery _
  have hb : noQmark baseNoSlash = true := by decide
  have hsl : noQmark (("/").data) = true := by decide
  have hht : noQmark (("https:").data) = true := by decide
  by_cases h1 : (strStarts (("http://").data) u || strStarts (("https://").data) u) = true
  · rw [if_pos h1]; exact hq
  · rw [if_neg h1]
    by_cases h2 : strStarts (("//").data) u = true
    · rw [if_pos h2]
      rw [noQmark_append, hht, hq]
      rfl
    · rw [if_neg h2]
      by_cases h3 : strStarts (("/").data) u = true
      · rw [if_pos h3]
        rw [noQmark_append, hb, hq]
        rfl
      · rw [if_neg h3]
        cases hf : findSub (("cdn/shop/files/").data) u with
        | some idx =>
          dsimp only
          have hd : noQmark (u.drop idx) = true := all_drop_of_all _ idx u hq
          rw [noQmark_append, noQmark_append, hb, hsl, hd]
          rfl
        | none =>
          cases hg : findSub (("emestudios.com").data) u with
          | some i =>
            dsimp only
            have hd : noQmark (lstripSlash (u.drop (i + 14))) = true :=
              all_dropWhile_of_all _ _ _ (all_drop_of_all _ (i + 14) u hq)
            rw [noQmark_append, noQmark_append, hb, hsl, hd]
            rfl
          | none =>
            dsimp only
            have hd : noQmark (lstripSlash u) = true :=
              all_dropWhile_of_all _ _ _ hq
            rw [noQmark_append, noQmark_append, hb, hsl, hd]
            rfl

/-! ## Claims about _normalize_image_url: C2 and C10 -/

/-- C2 counterexample: _normalize_image_url is not idempotent as claimed.
Whitespace kept before the first question mark survives into the result,
and a second application strips it as trailing whitespace: on the input
a-space-question-b the first application yields the base URL with a
trailing space and the second application removes that space. -/
theorem normalizeImageUrl_not_idempotent :
    (normalizeImageUrl (("a ?b").data)).bind normalizeImageUrl
      ≠ normalizeImageUrl (("a ?b").data)
    ∧ normalizeImageUrl (("a ?b").data)
      = some (("https://emestudios.com/a ").data)
    ∧ normalizeImageUrl (("https://emestudios.com/a ").data)
      = some (("https://emestudios.com/a").data) := by
  decide

/-- C2 (amended): _normalize_image_url is idempotent on every input whose
result carries no trailing whitespace; a returned URL always starts with an
http or https scheme and contains no question mark, so re-normalizing it
returns it unchanged whenever the trailing-whitespace strip is inert. -/
theorem normalizeImageUrl_idem_of_no_trailing_ws (x u : Str)
    (hfx : normalizeImageUrl x = some u) (hws : rstripWs u = u) :
    normalizeImageUrl u = some u := by
  unfold normalizeImageUrl at hfx
  by_cases hx : x = []
  · rw [if_pos hx] at hfx
    cases hfx
  · rw [if_neg hx] at hfx
    have hcu : normalizeImageUrlCore x = u := Option.some.inj hfx
    have hstar : strStarts (("http://").data) u = true
        ∨ strStarts (("https://").data) u = true := by
      rw [← hcu]
      exact core_starts x
    have hq : noQmark u = true := by
      rw [← hcu]
      exact core_noQmark x
    have hh : ∃ r, u = 'h' :: r := by
      rcases hstar with h | h
      · obtain ⟨r, hr⟩ := (strStarts_iff_append _ _).mp h
        exact ⟨("ttp://").data ++ r, by rw [hr]; rfl⟩
      · obtain ⟨r, hr⟩ := (strStarts_iff_append _ _).mp h
        exact ⟨("ttps://").data ++ r, by rw [hr]; rfl⟩
    obtain ⟨r, hr⟩ := hh
    have hne : u ≠ [] := by
      rw [hr]
      exact List.cons_ne_nil _ _
    have hl : lstripWs u = u := by
      rw [hr]
      exact lstripWs_cons_of_not _ (by decide)
    have hstrip : pyStrip u = u := by
      rw [pyStrip, hl, hws]
    have hsq : splitQuery u = u := takeWhile_of_all _ u hq
    unfold normalizeImageUrl
    rw [if_neg hne]
    have hcore : normalizeImageUrlCore u = u := by
      simp only [normalizeImageUrlCore]
      rw [hstrip, hsq]
      rw [if_pos (Bool.or_eq_true_iff.mpr hstar)]
    rw [hcore]

/-- C2 witness: a double-domain artifact input normalizes to a URL without
trailing whitespace, and the amended idempotence theorem applies to it. -/
theorem normalizeImageUrl_idem_witness :
    normalizeImageUrl (("foo/emestudios.com/bar").data)
      = some (("https://emestudios.com/bar").data)
    ∧ rstripWs (("https://emestudios.com/bar").data)
      = (("https://emestudios.com/bar").data)
    ∧ normalizeImageUrl (("https://emestudios.com/bar").data)
      = some (("https://emestudios.com/bar").data) :=
  ⟨by decide, by decide,
   normalizeImageUrl_idem_of_no_trailing_ws
     (("foo/emestudios.com/bar").data) (("https://emestudios.com/bar").data)
     (by decide) (by decide)⟩

/-- C10: for every non-empty string input _normalize_image_url returns some
URL beginning with an http or https scheme, and it returns none only on the
empty string. -/
theorem normalizeImageUrl_total_absolute :
    (∀ s : Str, s ≠ [] →
      ∃ u, normalizeImageUrl s = some u ∧
        (strStarts (("http://").data) u = true
         ∨ strStarts (("https://").data) u = true))
    ∧ (∀ s : Str, normalizeImageUrl s = none → s = []) := by
  constructor
  · intro s hs
    refine ⟨normalizeImageUrlCore s, ?_, core_starts s⟩
    simp [normalizeImageUrl, hs]
  · intro s h
    by_contra hs
    simp [normalizeImageUrl, hs] at h

/-- C10 witness: the totality theorem applied to a concrete relative path. -/
theorem normalizeImageUrl_total_witness :
    ∃ u, normalizeImageUrl (("x").data) = some u ∧
      (strStarts (("http://").data) u = true
       ∨ strStarts (("https://").data) u = true) :=
  normalizeImageUrl_total_absolute.1 (("x").data) (by decide)

/-! ## Claim C1: gender inference -/

/-- A record whose category names a women-only product line. -/
def womensRecord : RawData :=
  { category := some ((("Women").data) ++ apos :: (("s Hoodie").data)) }

/-- A record whose category names a men-only product line. -/
def mensRecord : RawData :=
  { category := some ((("Men").data) ++ apos :: (("s Jacket").data)) }

/-- A record with no gendered text anywhere. -/
def neutralRecord : RawData := { category := some (("Accessories").data) }

/-- C1: the men and absent cases behave as claimed, but a combined text
containing the possessive Women keyword yields man, not woman, because the
lower-cased text contains the substring men and the men check runs first.
This contradicts the claim and the spec example. -/
theorem inferGender_womens_is_man :
    inferGender mensRecord = some (("man").data)
    ∧ inferGender neutralRecord = none
    ∧ inferGender womensRecord = some (("man").data)
    ∧ inferGender womensRecord ≠ some (("woman").data) := by
  decide

/-! ## Claim C3: sale derivation -/

/-- C3: with a resolved price, a sale is recorded exactly when the compare-at
amount parses and exceeds it strictly; then the compare-at amount is
displayed as the price and the resolved price becomes the sale, otherwise
the resolved price is displayed and the sale is absent. -/
theorem buildPriceAndSale_spec (d : RawData) (p : ℚ) (cur : Str)
    (h : resolvedPriceCur d = (some p, cur)) :
    (∀ cv, parsedCompare d = some cv → p < cv →
      buildPriceAndSale d = (fmt2 cv ++ cur, some (fmt2 p ++ cur)))
    ∧ (∀ cv, parsedCompare d = some cv → ¬ p < cv →
      buildPriceAndSale d = (fmt2 p ++ cur, none))
    ∧ (parsedCompare d = none → buildPriceAndSale d = (fmt2 p ++ cur, none))
    ∧ (∀ s, (buildPriceAndSale d).2 = some s →
      ∃ cv, parsedCompare d = some cv ∧ p < cv ∧ s = fmt2 p ++ cur) := by
  refine ⟨?_, ?_, ?_, ?_⟩
  · intro cv hcv hlt
    simp [buildPriceAndSale, h, hcv, hlt]
  · intro cv hcv hnlt
    simp [buildPriceAndSale, h, hcv, hnlt]
  · intro hn
    simp [buildPriceAndSale, h, hn]
  · intro s hs
    cases hc : parsedCompare d with
    | none =>
      rw [buildPriceAndSale, h] at hs
      simp [hc] at hs
    | some cv =>
      by_cases hlt : p < cv
      · refine ⟨cv, rfl, hlt, ?_⟩
        rw [buildPriceAndSale, h] at hs
        simp [hc, hlt] at hs
        exact hs.symm
      · rw [buildPriceAndSale, h] at hs
        simp [hc, hlt] at hs

/-- A record carrying price 50.00 and compare-at 70.00. -/
def salePriceRecord : RawData :=
  { price := some (("50.00").data), compareAtPrice := some (("70.00").data) }

/-- A record carrying price 50.00 and compare-at 40.00. -/
def noSaleRecord : RawData :=
  { price := some (("50.00").data), compareAtPrice := some (("40.00").data) }

/-- C3 witness: the spec examples, through the theorem. -/
theorem buildPriceAndSale_witness :
    buildPriceAndSale salePriceRecord = ((("70USD").data), some (("50USD").data))
    ∧ buildPriceAndSale noSaleRecord = ((("50USD").data), none) := by
  have h1 := (buildPriceAndSale_spec salePriceRecord 50 (("USD").data)
    (by decide)).1 70 (by decide) (by decide)
  have h2 := (buildPriceAndSale_spec noSaleRecord 50 (("USD").data)
    (by decide)).2.1 40 (by decide) (by decide)
  refine ⟨?_, ?_⟩
  · rw [h1]; decide
  · rw [h2]; decide

/-! ## Claim C4: minor-unit price normalization -/

theorem mem_of_mem_dropWhile (q : Char → Bool) :
    ∀ (l : Str) (a : Char), a ∈ l.dropWhile q → a ∈ l := by
  intro l
  induction l with
  | nil => intro a h; exact absurd h (List.not_mem_nil a)
  | cons b t ih =>
    intro a h
    by_cases hq : q b = true
    · rw [List.dropWhile_cons, if_pos hq] at h
      exact List.mem_cons_of_mem b (ih a h)
    · rw [List.dropWhile_cons, if_neg hq] at h
      exact h

/-- The integrality fact behind the cents branch: a cleaned string that
matches the numeric regex and holds no dot is a plain digit run, so its
exact value has denominator one. -/
theorem parseNum_den_of_no_dot (num : Str) (hm : matchesNumRe num = true)
    (hd : num.contains '.' = false) : (parseNum num).den = 1 := by
  have hrest : num.dropWhile isDigitChar = [] := by
    cases hr : num.dropWhile isDigitChar with
    | nil => rfl
    | cons c ds =>
      simp only [matchesNumRe, hr, Bool.and_eq_true] at hm
      have hc : c = '.' := by
        have := hm.2
        simp only [Bool.and_eq_true, beq_iff_eq] at this
        exact this.1
      have hmem : ('.') ∈ num := by
        apply mem_of_mem_dropWhile isDigitChar num
        rw [hr, ← hc]
        exact List.mem_cons_self c ds
      have : num.contains '.' = true := by
        simpa [List.elem_iff] using hmem
      rw [this] at hd
      cases hd
  simp only [parseNum, hrest]
  norm_num [digitsVal]

/-- The cents division agrees with ordinary division by one hundred. -/
theorem divBy100_eq (v : ℚ) : divBy100 v = v / 100 := by
  rw [divBy100, Rat.mkRat_eq_div]
  push_cast
  rw [div_mul_eq_div_div, Rat.num_div_den]

/-- C4: the two spec examples; a string with no digit yields none; and on a
cleaned string matching the numeric regex the value is kept as parsed when
a dot is present or the value is below one hundred, and divided by one
hundred when it is at least one hundred with no dot. -/
theorem normalizeAmount_spec :
    normalizeAmount (("8900").data) = some 89
    ∧ normalizeAmount (("19.99").data) = some (mkRat 1999 100)
    ∧ (∀ s : Str, (∀ c ∈ s, isDigitChar c = false) → normalizeAmount s = none)
    ∧ (∀ s : Str, matchesNumRe (cleanNum s) = true →
        (cleanNum s).contains '.' = true →
        normalizeAmount s = some (parseNum (cleanNum s)))
    ∧ (∀ s : Str, matchesNumRe (cleanNum s) = true →
        (cleanNum s).contains '.' = false →
        100 ≤ parseNum (cleanNum s) →
        normalizeAmount s = some (parseNum (cleanNum s) / 100))
    ∧ (∀ s : Str, matchesNumRe (cleanNum s) = true →
        (cleanNum s).contains '.' = false →
        parseNum (cleanNum s) < 100 →
        normalizeAmount s = some (parseNum (cleanNum s))) := by
  have hnonempty : ∀ s : Str, matchesNumRe (cleanNum s) = true → s ≠ [] := by
    intro s hm hs
    rw [hs] at hm
    exact absurd hm (by decide)
  refine ⟨by decide, by decide, ?_, ?_, ?_, ?_⟩
  · intro s hnd
    by_cases hs : s = []
    · rw [hs]; rfl
    · have hclean : ∀ c ∈ cleanNum s, isDigitChar c = false := by
        intro c hc
        simp only [cleanNum, List.mem_map, List.mem_filter] at hc
        obtain ⟨b, ⟨hbs, _⟩, hbc⟩ := hc
        by_cases hcomma : b = ','
        · rw [← hbc, hcomma]
          decide
        · have : b = c := by
            rw [← hbc]
            simp [hcomma]
          rw [← this]
          exact hnd b hbs
      have hm : matchesNumRe (cleanNum s) = false := by
        cases hcl : cleanNum s with
        | nil => decide
        | cons a t =>
          have ha : isDigitChar a = false := by
            apply hclean
            rw [hcl]
            exact List.mem_cons_self a t
          simp [matchesNumRe, List.takeWhile_cons, ha]
      simp [normalizeAmount, hs, hm]
  · intro s hm hdot
    have hs := hnonempty s hm
    simp only [normalizeAmount, if_neg hs, hm, if_pos]
    rw [if_neg]
    intro hcond
    rw [hdot] at hcond
    exact absurd hcond.2.1 (by decide)
  · intro s hm hdot h100
    have hs := hnonempty s hm
    have hden := parseNum_den_of_no_dot (cleanNum s) hm hdot
    simp only [normalizeAmount, if_neg hs, hm, if_pos]
    rw [if_pos ⟨h100, by rw [hdot]; rfl, hden⟩, divBy100_eq]
  · intro s hm hdot hlt
    have hs := hnonempty s hm
    simp only [normalizeAmount, if_neg hs, hm, if_pos]
    rw [if_neg]
    intro hcond
    exact absurd hcond.1 (not_le.mpr hlt)

/-- C4 witness: the theorem components at concrete inputs. -/
theorem normalizeAmount_witness :
    normalizeAmount (("abc").data) = none
    ∧ normalizeAmount (("8900").data) = some 89
    ∧ normalizeAmount (("19.99").data) = some (mkRat 1999 100) :=
  ⟨normalizeAmount_spec.2.2.1 (("abc").data) (by decide),
   normalizeAmount_spec.1, normalizeAmount_spec.2.1⟩

/-! ## Claim C8: category split -/

/-- C8: the ampersand example splits into a comma-joined list of trimmed
segments, a stripped non-empty category without ampersand passes through
unchanged, and an absent category yields none. -/
theorem normalizeCategory_spec :
    normalizeCategory (("Sweaters & Hoodies").data)
      = some (("Sweaters, Hoodies").data)
    ∧ (∀ c : Str, pyStrip c = c → c ≠ [] → c.contains '&' = false →
        normalizeCategory c = some c)
    ∧ normalizeCategory [] = none := by
  refine ⟨by decide, ?_, by decide⟩
  intro c hstrip hne hamp
  have h1 : ¬(c ≠ [] ∧ c.contains '&' = true) := by
    intro hcond
    rw [hamp] at hcond
    exact absurd hcond.2 (by decide)
  simp only [normalizeCategory, hstrip]
  rw [if_neg h1, if_neg hne]

/-- C8 witness: the pass-through component at a concrete category. -/
theorem normalizeCategory_witness :
    normalizeCategory (("Shirts").data) = some (("Shirts").data) :=
  normalizeCategory_spec.2.1 (("Shirts").data) (by decide) (by decide) (by decide)

/-! ## Claim C6: image classification -/

theorem splitCore_some (e : Str) :
    ∀ (urls acc : List Str),
      (∀ u ∈ urls, pyStrip u = u ∧ u ≠ []) →
      splitCore urls (some e) acc = (some e, acc ++ urls) := by
  intro urls
  induction urls with
  | nil =>
    intro acc _
    simp [splitCore]
  | cons u rest ih =>
    intro acc hclean
    have hu := hclean u (List.mem_cons_self u rest)
    have hrest : ∀ v ∈ rest, pyStrip v = v ∧ v ≠ [] :=
      fun v hv => hclean v (List.mem_cons_of_mem u hv)
    simp only [splitCore, hu.1]
    rw [if_neg hu.2]
    by_cases hemb : isEmbedImageUrl u = true
    · rw [if_pos hemb, ih (acc ++ [u]) hrest]
      simp
    · rw [if_neg hemb, ih (acc ++ [u]) hrest]
      simp

theorem splitCore_none :
    ∀ (urls acc : List Str),
      (∀ u ∈ urls, pyStrip u = u ∧ u ≠ []) →
      splitCore urls none acc =
        (match firstEmbedSplit urls with
         | some (a, others) => (some a, acc ++ others)
         | none =>
           match acc ++ urls with
           | [] => (none, [])
           | h :: t => (some h, t)) := by
  intro urls
  induction urls with
  | nil =>
    intro acc _
    cases acc with
    | nil => simp [splitCore, firstEmbedSplit]
    | cons h t => simp [splitCore, firstEmbedSplit]
  | cons u rest ih =>
    intro acc hclean
    have hu := hclean u (List.mem_cons_self u rest)
    have hrest : ∀ v ∈ rest, pyStrip v = v ∧ v ≠ [] :=
      fun v hv => hclean v (List.mem_cons_of_mem u hv)
    simp only [splitCore, hu.1]
    rw [if_neg hu.2]
    by_cases hemb : isEmbedImageUrl u = true
    · rw [if_pos hemb, splitCore_some u rest acc hrest]
      simp [firstEmbedSplit, hemb]
    · rw [if_neg hemb, ih (acc ++ [u]) hrest]
      simp only [firstEmbedSplit, hemb]
      cases hfe : firstEmbedSplit rest with
      | some pair =>
        cases pair with
        | mk a o => simp
      | none =>
        cases acc <;> simp

/-- C6: on clean image URL lists (stripped, non-empty entries, as the scraper
produces them) the loop of split_embed_and_extra_images computes exactly
the classification the spec describes: first pattern match as embed with
the rest in order, else first URL promoted, else both empty. -/
theorem splitEmbed_refines_spec (urls : List Str)
    (hclean : ∀ u ∈ urls, pyStrip u = u ∧ u ≠ []) :
    splitEmbedAndExtraImages urls = splitSpec urls := by
  rw [splitEmbedAndExtraImages, splitCore_none urls [] hclean, splitSpec.eq_def]
  cases hfe : firstEmbedSplit urls with
  | some pair =>
    cases pair with
    | mk a o => simp
  | none =>
    cases urls <;> simp

/-- A URL matching the embed pattern. -/
def embedA : Str := ("https://emestudios.com/cdn/shop/files/2024_01_05EME1.webp").data

/-- A product photo URL not matching the embed pattern. -/
def extraB : Str := ("https://emestudios.com/cdn/shop/products/b.jpg").data

/-- Another URL not matching the embed pattern. -/
def extraC : Str := ("https://emestudios.com/cdn/shop/files/lookbook.jpg").data

/-- C6 witness: the three spec examples, through the refinement theorem. -/
theorem splitEmbed_witness :
    splitEmbedAndExtraImages [embedA, extraB, extraC] = (some embedA, [extraB, extraC])
    ∧ splitEmbedAndExtraImages [extraB, extraC] = (some extraB, [extraC])
    ∧ splitEmbedAndExtraImages [] = (none, []) := by
  refine ⟨?_, ?_, ?_⟩
  · rw [splitEmbed_refines_spec [embedA, extraB, extraC] (by decide)]
    decide
  · rw [splitEmbed_refines_spec [extraB, extraC] (by decide)]
    decide
  · rw [splitEmbed_refines_spec [] (by decide)]
    decide

/-! ## Claim C7: product URL rejection -/

/-- C7 counterexample: the accepted URL is not the plain resolution of the
href against the base origin with the query stripped, because the locale
rewrite turns an en-us segment into en-at first. -/
theorem normalizeProductUrl_locale_rewrite :
    normalizeProductUrl (("/en-us/products/a").data)
      = (("https://emestudios.com/en-at/products/a").data)
    ∧ normalizeProductUrl (("/en-us/products/a").data)
      ≠ splitQuery (urljoinBase (("/en-us/products/a").data)) := by
  decide

/-- C7 (amended): _normalize_product_url returns the empty string on an empty
href, a fragment-only href, an href containing the javascript pseudo
protocol, and whenever the resolved and locale-rewritten URL lacks the
products path marker; otherwise it returns that locale-rewritten absolute
URL with the query string stripped. -/
theorem normalizeProductUrl_spec (href : Str) :
    ((href = [] ∨ strStarts (("#").data) href = true
      ∨ containsSub (("javascript:").data) href = true) →
      normalizeProductUrl href = [])
    ∧ (containsSub (("/products/").data) (localeFix (urljoinBase href)) = false →
      normalizeProductUrl href = [])
    ∧ (href ≠ [] → strStarts (("#").data) href = false →
      containsSub (("javascript:").data) href = false →
      containsSub (("/products/").data) (localeFix (urljoinBase href)) = true →
      normalizeProductUrl href = splitQuery (localeFix (urljoinBase href))) := by
  refine ⟨?_, ?_, ?_⟩
  · intro h
    simp only [normalizeProductUrl]
    rw [if_pos]
    rcases h with h | h | h
    · simp [h]
    · simp [h]
    · simp [h]
  · intro h
    simp only [normalizeProductUrl]
    split
    · rfl
    · rw [h]
      simp
  · intro h1 h2 h3 h4
    simp only [normalizeProductUrl]
    rw [if_neg (by simp [h1, h2, h3])]
    rw [h4]
    simp

/-- C7 witness: one accepted href resolved, rewritten and query-stripped, and
one rejected href without the products marker, through the theorem. -/
theorem normalizeProductUrl_witness :
    normalizeProductUrl (("/en-at/products/x?q=1").data)
      = (("https://emestudios.com/en-at/products/x").data)
    ∧ normalizeProductUrl (("/about").data) = [] := by
  have hacc := (normalizeProductUrl_spec (("/en-at/products/x?q=1").data)).2.2
    (by decide) (by decide) (by decide) (by decide)
  have hrej := (normalizeProductUrl_spec (("/about").data)).2.1 (by decide)
  exact ⟨by rw [hacc]; decide, hrej⟩

/-! ## Claim C5: title invariant and skip-and-continue -/

theorem scrapeProductPage_none_of_no_title (d0 : Option RawData) (h1 og : Option Str)
    (hm : titleMissing d0 = true) (hnt : ∀ t, h1 = some t → pyStrip t = []) :
    scrapeProductPage d0 h1 og = none := by
  have hA : titleMissing (applyTitleFallback d0 h1) = true := by
    simp only [applyTitleFallback, hm, if_pos]
    cases h1 with
    | none => exact hm
    | some t =>
      by_cases ht : t = []
      · simp [ht, hm]
      · have hpt : pyStrip t = [] := hnt t rfl
        simp [ht, titleMissing, hpt]
  simp only [scrapeProductPage]
  cases hAv : applyTitleFallback d0 h1 with
  | none => rfl
  | some d =>
    rw [hAv] at hA
    dsimp only
    rw [if_pos hA]

theorem scrapeProductPage_some_title (d0 : Option RawData) (h1 og : Option Str)
    (r : RawData) (h : scrapeProductPage d0 h1 og = some r) :
    ∃ t, r.title = some t ∧ t ≠ [] := by
  simp only [scrapeProductPage] at h
  cases hA : applyTitleFallback d0 h1 with
  | none =>
    rw [hA] at h
    cases h
  | some d =>
    rw [hA] at h
    dsimp only at h
    by_cases hm : titleMissing (some d) = true
    · rw [if_pos hm] at h
      cases h
    · rw [if_neg hm] at h
      injection h with h2
      subst h2
      cases hdt : d.title with
      | none =>
        exact absurd (by simp [titleMissing, hdt]) hm
      | some t =>
        cases t with
        | nil =>
          exact absurd (by simp [titleMissing, hdt]) hm
        | cons c cs =>
          refine ⟨c :: cs, ?_, by simp⟩
          simp [finishRecord, hdt]

theorem runScraperLoop_titles :
    ∀ (pages : List (Str × ProductPage)) (row : OutRow),
      row ∈ runScraperLoop pages → ∃ t, row.row.title = some t ∧ t ≠ [] := by
  intro pages
  induction pages with
  | nil =>
    intro row h
    exact absurd h (List.not_mem_nil row)
  | cons up rest ih =>
    intro row h
    obtain ⟨url, p⟩ := up
    cases ho : scrapeOutcome p with
    | none =>
      simp only [runScraperLoop, ho] at h
      exact ih row h
    | some r =>
      simp only [runScraperLoop, ho] at h
      rcases List.mem_cons.mp h with h1 | h2
      · subst h1
        cases p with
        | crash => cases ho
        | page d0 h1 og =>
          obtain ⟨t, ht, hne⟩ := scrapeProductPage_some_title d0 h1 og r ho
          exact ⟨t, ht, hne⟩
      · exact ih row h2

/-- C5: a page with no extractable title after all fallbacks yields no record;
every record produced carries a non-empty title, hence so does every row of
the run_scraper output; and a crashed or titleless product is skipped while
the loop continues with the remaining URLs. -/
theorem runScraper_title_and_skip :
    (∀ (d0 : Option RawData) (h1 og : Option Str),
      titleMissing d0 = true →
      (∀ t, h1 = some t → pyStrip t = []) →
      scrapeProductPage d0 h1 og = none)
    ∧ (∀ (d0 : Option RawData) (h1 og : Option Str) (r : RawData),
      scrapeProductPage d0 h1 og = some r →
      ∃ t, r.title = some t ∧ t ≠ [])
    ∧ (∀ (url : Str) (p : ProductPage) (rest : List (Str × ProductPage)),
      scrapeOutcome p = none →
      runScraperLoop ((url, p) :: rest) = runScraperLoop rest)
    ∧ (∀ (pages : List (Str × ProductPage)) (row : OutRow),
      row ∈ runScraperLoop pages → ∃ t, row.row.title = some t ∧ t ≠ []) := by
  refine ⟨scrapeProductPage_none_of_no_title, scrapeProductPage_some_title, ?_,
    runScraperLoop_titles⟩
  intro url p rest h
  simp [runScraperLoop, h]

/-- A well-formed scraped page with a title, used by the C5 witness. -/
def goodPage : ProductPage :=
  ProductPage.page (some { title := some (("Tee").data) }) none none

/-- C5 witness: a crashed first product is skipped and the batch continues; a
titleless page yields none; and the surviving row has a non-empty title. -/
theorem runScraper_title_witness :
    scrapeProductPage (some {}) none none = none
    ∧ runScraperLoop [((("u1").data), ProductPage.crash), ((("u2").data), goodPage)]
      = runScraperLoop [((("u2").data), goodPage)]
    ∧ (runScraperLoop [((("u2").data), goodPage)]).length = 1 := by
  refine ⟨?_, ?_, by decide⟩
  · exact runScraper_title_and_skip.1 (some {}) none none (by decide)
      (by intro t ht; cases ht)
  · exact runScraper_title_and_skip.2.2.1 (("u1").data) ProductPage.crash
      [((("u2").data), goodPage)] (by decide)

/-! ## Claim C9: pagination termination -/

theorem collectIter_le :
    ∀ (fuel : Nat) (reads : Nat → List Str) (m : Option Nat)
      (attempt t : Nat) (seen : List Str),
      (collectIter reads m fuel attempt t seen).2 ≤ fuel := by
  intro fuel
  induction fuel with
  | zero =>
    intro reads m attempt t seen
    simp [collectIter]
  | succ f ih =>
    intro reads m attempt t seen
    simp only [collectIter]
    split
    · simp
    · split
      · split
        · simp
        · split
          · simp
          · have h := ih reads m (attempt + 1) (t + 3)
              (addLinks (addLinks seen (reads t)) (reads (t + 2)))
            simp only []
            omega
      · split
        · simp
        · have h := ih reads m (attempt + 1) (t + 2) (addLinks seen (reads t))
          simp only []
          omega

/-- A category page whose every anchor read reveals one further product: the
read at time t lists the first t plus one product URLs. -/
def growingReads (t : Nat) : List Str :=
  (List.range (t + 1)).map
    (fun i => ("https://emestudios.com/en-at/products/p").data ++ Nat.toDigits 10 i)

/-- The product URL first revealed by the read the loop never makes. -/
def nextProductUrl : Str := ("https://emestudios.com/en-at/products/p5").data

/-- C9: the loop runs at most MAX_SCROLL_ATTEMPTS iterations as claimed, but
the early-exit condition diverges from the claim: on a page that reveals a
new product URL at every read, the loop still stops after three iterations,
leaving later URLs uncollected, because the previous-count snapshot is
taken after merging the current read and the third-iteration check then
compares the seen count with itself. -/
theorem collect_pagination_bug :
    (∀ (reads : Nat → List Str) (m : Option Nat),
      (collectProductUrls reads m).2 ≤ MAX_SCROLL_ATTEMPTS)
    ∧ (collectProductUrls growingReads none).2 = 3
    ∧ (collectProductUrls growingReads none).1.length = 5
    ∧ normalizeProductUrl nextProductUrl = nextProductUrl
    ∧ nextProductUrl ∈ growingReads 6
    ∧ (collectProductUrls growingReads none).1.contains nextProductUrl = false := by
  refine ⟨?_, by decide, by decide, by decide, by decide, by decide⟩
  intro reads m
  exact collectIter_le MAX_SCROLL_ATTEMPTS reads m 0 0 []
